import Mathlib

/-!
Shallow embedding of `src/lib/Runner.js` (lambda-shearer).

The Runner class sweeps a list of memory steps; for each step it sets the
function's memory, runs a cycle of invocations (optionally preceded by a
warm-up invocation), parses the observed durations into a statistics report,
and finally restores the original memory size.

Modelling conventions:
* JS numbers that hold raw parsed durations are modelled as `ℚ` (exact
  rationals); `Math.round` is `jsRound q = ⌊q + 1/2⌋`, which matches the JS
  semantics of rounding half toward positive infinity for the integer-scale
  values occurring here.
* An invocation result is `Option ℤ`: `some d` is a rounded duration, `none`
  is the JS `null` returned when the log line does not match `REPORT_REGEX`.
* JS numeric coercion of `null` to `0` (in `Math.min`, `Math.max`, `+` and
  the sort comparator of the percentile package) is `jsToNum`.
* The AWS client and the bluebird promise machinery are replaced by an
  `Adapter` oracle (a pure function of the sweep position and invocation
  index) plus an explicit, sequential trace of `Action`s.  The trace records
  every adapter call, every emitted event and every `.delay` call, in source
  order.  Completion of in-flight invocations is serialized in dispatch
  order; bluebird's `Promise.map` returns results indexed by dispatch order
  in any case.
* Bluebird semantics mirrored: `.delay` has no effect on a rejected promise;
  `Promise.reduce` is sequential; `.finally` runs its handler on both paths
  and, when the handler's promise rejects, the overall promise rejects with
  the handler's reason (replacing the original outcome).
* `Math.min()` / `Math.max()` over an empty spread give JS `Infinity`; the
  embedded `listMin`/`listMax` return a junk value `0` on `[]`, and every
  theorem touching them carries a non-emptiness hypothesis.
-/

deriving instance DecidableEq for Except

namespace Runner

/-- Errors that the adapter oracle may throw.  The source forwards adapter
rejections unmodified, so the payload only needs to distinguish errors. -/
inductive Err where
  | invocationError (step idx : ℕ)
  | configUpdateError (m : ℤ)
  | other (n : ℕ)
deriving DecidableEq, Repr

/-- The external AWS Lambda surface used by the Runner:
`getFunctionConfiguration` (memory read), `updateFunctionConfiguration`
(memory write) and `invoke` (one remote call, already reduced to its parsed
raw duration or `none` when the REPORT log line does not match). `invoke`
takes the sweep position and the invocation index. -/
structure Adapter where
  getMemory : Except Err ℤ
  setMemory : ℤ → Except Err Unit
  invoke : ℕ → ℕ → Except Err (Option ℚ)

/-- The options object assigned onto the Runner instance. -/
structure Config where
  steps : List ℤ
  repeats : ℕ
  concurrency : ℕ
  warmup : Bool
  delay : ℕ
deriving Repr

/-- Round-half-up of the exact quotient `a / b` (for `b > 0`), computed by
integer floor division: `(2a + b) / (2b) = ⌊a/b + 1/2⌋` (`roundDiv_eq`). -/
def roundDiv (a : ℤ) (b : ℕ) : ℤ := (2 * a + (b : ℤ)) / (2 * (b : ℤ))

/-- JS `Math.round` (round half toward positive infinity) on an exact
rational; `jsRound_eq` identifies it with `⌊q + 1/2⌋`. -/
def jsRound (q : ℚ) : ℤ := roundDiv q.num q.den

/-- JS `ToNumber` coercion on an invocation result: `null` coerces to `0`. -/
def jsToNum : Option ℤ → ℤ
  | none => 0
  | some x => x

/-- `_invokeLambda(i)`: perform the remote call and return
`Math.round(Number(parsedLog[2]))`, or `null` when the log did not parse.
The payload resolution (value or function-of-index) only feeds the adapter
and is absorbed into the oracle. -/
def invokeLambda (ad : Adapter) (s i : ℕ) : Except Err (Option ℤ) :=
  match ad.invoke s i with
  | .error e => .error e
  | .ok none => .ok none
  | .ok (some q) => .ok (some (jsRound q))

/-- `PERCENTILES` constant of the source. -/
def PERCENTILES : List ℕ := [50, 66, 75, 80, 90, 95, 98, 99]

/-- Comparison used by the percentile package's sort callback
`(a, b) => Number(a) - Number(b)`. -/
def numLe (a b : Option ℤ) : Prop := jsToNum a ≤ jsToNum b

instance : DecidableRel numLe := fun a b =>
  inferInstanceAs (Decidable (jsToNum a ≤ jsToNum b))

/-- Stable sort of the cycle result by coerced numeric value (JS
`Array.prototype.sort` with the numeric comparator). -/
def sortByNum (l : List (Option ℤ)) : List (Option ℤ) := l.insertionSort numLe

/-- The `percentile` npm package on a single rank: sort by coerced value,
then pick index `Math.ceil(length * (p / 100)) - 1` (rank 0 picks the first
element).  The ceiling of the exact quotient `length * p / 100` is the
natural ceil-division `(length * p + 99) / 100`; the float representation
error of `p / 100` in JS is not modelled.  Out-of-range access (impossible
for nonempty input and `0 < p ≤ 100`) is `none`. -/
def percentile (p : ℕ) (list : List (Option ℤ)) : Option (Option ℤ) :=
  let sorted := sortByNum list
  if p = 0 then sorted.head?
  else sorted.get? ((list.length * p + 99) / 100 - 1)

/-- JS `Math.min(...args)` over at least one coerced argument; `[]` gives
`Infinity` in JS and junk `0` here (unreachable in the claims). -/
def listMin : List ℤ → ℤ
  | [] => 0
  | x :: xs => xs.foldl min x

/-- JS `Math.max(...args)`; same remark as `listMin`. -/
def listMax : List ℤ → ℤ
  | [] => 0
  | x :: xs => xs.foldl max x

/-- `_getAverage(durations)`: `Math.round(durations.reduce((acc, d) => acc + d, 0)
/ durations.length)`.  A `null` entry coerces to `0` in the `+`; the sum of
integer-valued JS numbers is exact, and the single division followed by the
one `Math.round` is round-half-up of the exact quotient, `roundDiv`
(see `roundDiv_eq`). -/
def getAverage (durations : List (Option ℤ)) : ℤ :=
  roundDiv (durations.foldl (fun acc d => acc + jsToNum d) 0) durations.length

/-- One step's statistics report (`_parseCycleResult`'s return shape). -/
structure StepReport where
  min : ℤ
  max : ℤ
  avg : ℤ
  percentiles : List (ℕ × Option (Option ℤ))
deriving DecidableEq, Repr

/-- `_parseCycleResult(cycleResult)`: note that it is applied to the raw
cycle result, `null` entries included. -/
def parseCycleResult (cycleResult : List (Option ℤ)) : StepReport :=
  { min := listMin (cycleResult.map jsToNum)
    max := listMax (cycleResult.map jsToNum)
    avg := getAverage cycleResult
    percentiles := PERCENTILES.map (fun p => (p, percentile p cycleResult)) }

/-- One entry of the sequential run trace: adapter calls, emitted events and
`.delay` calls, in source order.  `setConfig` is the per-step
`_setAllocatedMemory(memoryStep)` call (line 115) and `restoreConfig` the
finalizing `_setAllocatedMemory(originalMemorySize)` call (line 131); both
consult the same `Adapter.setMemory` oracle. -/
inductive Action where
  | getConfig (m : ℤ)
  | emitStart (m : ℤ)
  | setConfig (m : ℤ)
  | emitStep (m : ℤ)
  | emitWarmup
  | delay (ms : ℕ)
  | invoke (i : ℕ)
  | emitInvoke (d : Option ℤ)
  | emitResult (r : StepReport)
  | emitFinish
  | restoreConfig (m : ℤ)
deriving DecidableEq, Repr

/-- `true` exactly on the finalizing restore call. -/
def Action.isRestore : Action → Bool
  | .restoreConfig _ => true
  | _ => false

/-- `true` exactly on the per-step configuration call. -/
def Action.isSetConfig : Action → Bool
  | .setConfig _ => true
  | _ => false

/-- `true` exactly on the `finish` event. -/
def Action.isFinish : Action → Bool
  | .emitFinish => true
  | _ => false

/-- The body of `BPromise.map(Array.from(Array(count)).keys(), i => ...)`
with `{ concurrency }`: for each `i` in `0..count-1`, delay by
`concurrency === 1 ? delay : 0`, dispatch invocation `i + 1`, and `tap`-emit
an `invoke` event with the result.  Dispatch is in index order and the
result list is indexed by dispatch order (bluebird `Promise.map`).  A
rejection short-circuits. -/
def invocationLoop (cfg : Config) (ad : Adapter) (s : ℕ) :
    (i : ℕ) → (n : ℕ) → List Action × Except Err (List (Option ℤ))
  | _, 0 => ([], .ok [])
  | i, Nat.succ n' =>
    let d := Action.delay (if cfg.concurrency == 1 then cfg.delay else 0)
    match invokeLambda ad s (i + 1) with
    | .error e => ([d, .invoke (i + 1)], .error e)
    | .ok dur =>
      let rest := invocationLoop cfg ad s (i + 1) n'
      (d :: .invoke (i + 1) :: .emitInvoke dur :: rest.1,
        match rest.2 with
        | .error e => .error e
        | .ok l => .ok (dur :: l))

/-- `_cycle(count)` at sweep position `s`: optional warm-up (event emitted
first, then invocation index 0, result discarded), then
`.delay(warmup ? delay : 0)` — note this pre-cycle delay depends only on
`warmup`, not on `concurrency` — then the timed invocation loop.  A rejected
warm-up skips the delay (bluebird `.delay` passes rejections through). -/
def cycle (cfg : Config) (ad : Adapter) (s : ℕ) :
    List Action × Except Err (List (Option ℤ)) :=
  if cfg.warmup && cfg.concurrency == 1 then
    match invokeLambda ad s 0 with
    | .error e => ([.emitWarmup, .invoke 0], .error e)
    | .ok _ =>
      let rest := invocationLoop cfg ad s 0 cfg.repeats
      (.emitWarmup :: .invoke 0 ::
        .delay (if cfg.warmup then cfg.delay else 0) :: rest.1, rest.2)
  else
    let rest := invocationLoop cfg ad s 0 cfg.repeats
    (.delay (if cfg.warmup then cfg.delay else 0) :: rest.1, rest.2)

/-- `Object.assign(report, { [memoryStep]: parsedResult })` on the insertion
ordered report object: overwrite in place if the key exists, else append. -/
def reportInsert (report : List (ℤ × StepReport)) (m : ℤ) (rep : StepReport) :
    List (ℤ × StepReport) :=
  if report.any (fun kv => kv.1 == m) then
    report.map (fun kv => if kv.1 == m then (m, rep) else kv)
  else report ++ [(m, rep)]

/-- The `BPromise.reduce(this.steps, ...)` body: sequentially, for each
memory step, set the configuration, emit `step`, run a cycle, parse it, emit
`result` and extend the report.  The first rejection short-circuits. -/
def sweep (cfg : Config) (ad : Adapter) :
    (idx : ℕ) → (steps : List ℤ) → (report : List (ℤ × StepReport)) →
    List Action × Except Err (List (ℤ × StepReport))
  | _, [], report => ([], .ok report)
  | idx, m :: rest, report =>
    match ad.setMemory m with
    | .error e => ([.setConfig m], .error e)
    | .ok _ =>
      let c := cycle cfg ad idx
      match c.2 with
      | .error e => (Action.setConfig m :: Action.emitStep m :: c.1, .error e)
      | .ok cycleResult =>
        let parsed := parseCycleResult cycleResult
        let next := sweep cfg ad (idx + 1) rest (reportInsert report m parsed)
        (Action.setConfig m :: Action.emitStep m :: c.1 ++
          Action.emitResult parsed :: next.1, next.2)

/-- `run()`: read the original memory size, emit `start`, run the sweep,
and in the `finally` handler emit `finish` and restore the original memory
size.  When the restore call itself rejects, its reason replaces the
sweep's outcome (bluebird `.finally` semantics); otherwise the sweep's
outcome passes through.  A failing initial read produces no events at all
(the `finally` is attached inside the first `.then`). -/
def run (cfg : Config) (ad : Adapter) :
    List Action × Except Err (List (ℤ × StepReport)) :=
  match ad.getMemory with
  | .error e => ([], .error e)
  | .ok m0 =>
    let s := sweep cfg ad 0 cfg.steps []
    let acts := Action.getConfig m0 :: Action.emitStart m0 :: s.1 ++
      [Action.emitFinish, Action.restoreConfig m0]
    match ad.setMemory m0 with
    | .error e2 => (acts, .error e2)
    | .ok _ => (acts, s.2)

/-! Concrete fixtures (configurations and adapter oracles) used to
instantiate the theorems below on closed inputs. -/

/-- An adapter that always succeeds: original memory 128, every
configuration update accepted, invocation `i` measuring `100·i` ms. -/
def adBase : Adapter :=
  { getMemory := .ok 128
    setMemory := fun _ => .ok ()
    invoke := fun _ i => .ok (some (mkRat (100 * (i : ℤ)) 1)) }

/-- An adapter whose invocations never carry parsable timing (`null`). -/
def adAllNull : Adapter :=
  { getMemory := .ok 128
    setMemory := fun _ => .ok ()
    invoke := fun _ _ => .ok none }

/-- An adapter where only invocation index 1 has parsable timing. -/
def adMixed : Adapter :=
  { getMemory := .ok 128
    setMemory := fun _ => .ok ()
    invoke := fun _ i => if i == 1 then .ok (some (mkRat 100 1)) else .ok none }

/-- An adapter whose invocations all fail with `InvocationError`. -/
def adInvokeFail : Adapter :=
  { getMemory := .ok 128
    setMemory := fun _ => .ok ()
    invoke := fun s i => .error (.invocationError s i) }

/-- An adapter whose invocations in sweep positions ≥ 1 fail; position 0
succeeds with 100 ms. -/
def adFailSecond : Adapter :=
  { getMemory := .ok 128
    setMemory := fun _ => .ok ()
    invoke := fun s i =>
      if s == 0 then .ok (some (mkRat 100 1)) else .error (.invocationError s i) }

/-- An adapter whose invocations fail and whose restore (setting memory back
to the original 128) also fails. -/
def adRestoreFail : Adapter :=
  { getMemory := .ok 128
    setMemory := fun m =>
      if m == 128 then .error (.configUpdateError m) else .ok ()
    invoke := fun s i => .error (.invocationError s i) }

/-- One step, one repeat, serial, no warm-up. -/
def cfgBase : Config :=
  { steps := [256], repeats := 1, concurrency := 1, warmup := false, delay := 0 }

/-- One step, two repeats, serial, no warm-up. -/
def cfgRepeats2 : Config :=
  { steps := [256], repeats := 2, concurrency := 1, warmup := false, delay := 0 }

/-- One step, three repeats, serial, warm-up on, 5 ms pacing. -/
def cfgWarm3 : Config :=
  { steps := [256], repeats := 3, concurrency := 1, warmup := true, delay := 5 }

/-- One step, one repeat, concurrency 2, warm-up on, 5 ms pacing. -/
def cfgConc2 : Config :=
  { steps := [256], repeats := 1, concurrency := 2, warmup := true, delay := 5 }

/-- A three-step sweep, one repeat, serial, no warm-up. -/
def cfgSweep3 : Config :=
  { steps := [256, 512, 1024], repeats := 1, concurrency := 1, warmup := false,
    delay := 0 }

/-! Pointwise evaluation of the embedded coercions and trace predicates. -/

@[simp] theorem jsToNum_none : jsToNum none = 0 := rfl

@[simp] theorem jsToNum_some (x : ℤ) : jsToNum (some x) = x := rfl

@[simp] theorem isRestore_getConfig (m : ℤ) : (Action.getConfig m).isRestore = false := rfl

@[simp] theorem isRestore_emitStart (m : ℤ) : (Action.emitStart m).isRestore = false := rfl

@[simp] theorem isRestore_setConfig (m : ℤ) : (Action.setConfig m).isRestore = false := rfl

@[simp] theorem isRestore_emitStep (m : ℤ) : (Action.emitStep m).isRestore = false := rfl

@[simp] theorem isRestore_emitWarmup : Action.emitWarmup.isRestore = false := rfl

@[simp] theorem isRestore_delay (ms : ℕ) : (Action.delay ms).isRestore = false := rfl

@[simp] theorem isRestore_invoke (i : ℕ) : (Action.invoke i).isRestore = false := rfl

@[simp] theorem isRestore_emitInvoke (d : Option ℤ) : (Action.emitInvoke d).isRestore = false := rfl

@[simp] theorem isRestore_emitResult (r : StepReport) : (Action.emitResult r).isRestore = false := rfl

@[simp] theorem isRestore_emitFinish : Action.emitFinish.isRestore = false := rfl

@[simp] theorem isRestore_restoreConfig (m : ℤ) : (Action.restoreConfig m).isRestore = true := rfl

@[simp] theorem isFinish_getConfig (m : ℤ) : (Action.getConfig m).isFinish = false := rfl

@[simp] theorem isFinish_emitStart (m : ℤ) : (Action.emitStart m).isFinish = false := rfl

@[simp] theorem isFinish_setConfig (m : ℤ) : (Action.setConfig m).isFinish = false := rfl

@[simp] theorem isFinish_emitStep (m : ℤ) : (Action.emitStep m).isFinish = false := rfl

@[simp] theorem isFinish_emitWarmup : Action.emitWarmup.isFinish = false := rfl

@[simp] theorem isFinish_delay (ms : ℕ) : (Action.delay ms).isFinish = false := rfl

@[simp] theorem isFinish_invoke (i : ℕ) : (Action.invoke i).isFinish = false := rfl

@[simp] theorem isFinish_emitInvoke (d : Option ℤ) : (Action.emitInvoke d).isFinish = false := rfl

@[simp] theorem isFinish_emitResult (r : StepReport) : (Action.emitResult r).isFinish = false := rfl

@[simp] theorem isFinish_emitFinish : Action.emitFinish.isFinish = true := rfl

@[simp] theorem isFinish_restoreConfig (m : ℤ) : (Action.restoreConfig m).isFinish = false := rfl

@[simp] theorem isSetConfig_getConfig (m : ℤ) : (Action.getConfig m).isSetConfig = false := rfl

@[simp] theorem isSetConfig_emitStart (m : ℤ) : (Action.emitStart m).isSetConfig = false := rfl

@[simp] theorem isSetConfig_setConfig (m : ℤ) : (Action.setConfig m).isSetConfig = true := rfl

@[simp] theorem isSetConfig_emitStep (m : ℤ) : (Action.emitStep m).isSetConfig = false := rfl

@[simp] theorem isSetConfig_emitWarmup : Action.emitWarmup.isSetConfig = false := rfl

@[simp] theorem isSetConfig_delay (ms : ℕ) : (Action.delay ms).isSetConfig = false := rfl

@[simp] theorem isSetConfig_invoke (i : ℕ) : (Action.invoke i).isSetConfig = false := rfl

@[simp] theorem isSetConfig_emitInvoke (d : Option ℤ) : (Action.emitInvoke d).isSetConfig = false := rfl

@[simp] theorem isSetConfig_emitResult (r : StepReport) : (Action.emitResult r).isSetConfig = false := rfl

@[simp] theorem isSetConfig_emitFinish : Action.emitFinish.isSetConfig = false := rfl

@[simp] theorem isSetConfig_restoreConfig (m : ℤ) : (Action.restoreConfig m).isSetConfig = false := rfl

/-! Bridge lemmas identifying the integer-division implementations with
their exact rational floor formulations. -/

theorem roundDiv_eq (a : ℤ) (b : ℕ) (hb : 0 < b) :
    roundDiv a b = ⌊(a : ℚ) / (b : ℚ) + 1/2⌋ := by
  have hbQ : (b : ℚ) ≠ 0 := Nat.cast_ne_zero.mpr hb.ne'
  have key : (a : ℚ) / b + 1/2 =
      ((2 * a + (b : ℤ) : ℤ) : ℚ) / ((2 * b : ℕ) : ℚ) := by
    push_cast
    field_simp
    ring
  have hcast : ((2 * b : ℕ) : ℤ) = 2 * (b : ℤ) := by push_cast; ring
  show (2 * a + (b : ℤ)) / (2 * (b : ℤ)) = _
  rw [key, Rat.floor_intCast_div_natCast, hcast]

theorem jsRound_eq (q : ℚ) : jsRound q = ⌊q + 1/2⌋ := by
  obtain ⟨n, d, hd0, hred⟩ := q
  have hq : (Rat.mk' n d hd0 hred : ℚ) = (n : ℚ) / (d : ℚ) := by
    rw [Rat.mk'_eq_divInt, Rat.divInt_eq_div]
    norm_num
  show roundDiv n d = ⌊Rat.mk' n d hd0 hred + 1/2⌋
  rw [hq]
  exact roundDiv_eq n d (Nat.pos_of_ne_zero hd0)

/-! Elementary facts about the JS-style reductions. -/

theorem foldl_add_jsToNum (l : List (Option ℤ)) (a : ℤ) :
    l.foldl (fun acc d => acc + jsToNum d) a = a + (l.map jsToNum).sum := by
  induction l generalizing a with
  | nil => simp
  | cons x xs ih =>
    show xs.foldl (fun acc d => acc + jsToNum d) (a + jsToNum x) = _
    rw [ih]
    simp [add_assoc]

theorem map_jsToNum_map_some (l : List ℤ) : List.map (jsToNum ∘ some) l = l := by
  induction l with
  | nil => rfl
  | cons x xs ih => simp [ih, jsToNum, Function.comp]

theorem foldl_min_le_init (xs : List ℤ) (a : ℤ) : xs.foldl min a ≤ a := by
  induction xs generalizing a with
  | nil => simp
  | cons x xs ih =>
    calc List.foldl min (min a x) xs ≤ min a x := ih _
    _ ≤ a := min_le_left a x

theorem init_le_foldl_max (xs : List ℤ) (a : ℤ) : a ≤ xs.foldl max a := by
  induction xs generalizing a with
  | nil => simp
  | cons x xs ih =>
    calc a ≤ max a x := le_max_left a x
    _ ≤ List.foldl max (max a x) xs := ih _

theorem foldl_min_le_mem (xs : List ℤ) (a x : ℤ) (hx : x ∈ xs) :
    xs.foldl min a ≤ x := by
  induction xs generalizing a with
  | nil => cases hx
  | cons y ys ih =>
    rcases List.mem_cons.mp hx with h | h
    · subst h
      calc List.foldl min (min a x) ys ≤ min a x := foldl_min_le_init ys _
      _ ≤ x := min_le_right a x
    · exact ih (min a y) h

theorem mem_le_foldl_max (xs : List ℤ) (a x : ℤ) (hx : x ∈ xs) :
    x ≤ xs.foldl max a := by
  induction xs generalizing a with
  | nil => cases hx
  | cons y ys ih =>
    rcases List.mem_cons.mp hx with h | h
    · subst h
      calc x ≤ max a x := le_max_right a x
      _ ≤ List.foldl max (max a x) ys := init_le_foldl_max ys _
    · exact ih (max a y) h

theorem listMin_le (l : List ℤ) (x : ℤ) (hx : x ∈ l) : listMin l ≤ x := by
  cases l with
  | nil => cases hx
  | cons y ys =>
    rcases List.mem_cons.mp hx with h | h
    · subst h
      exact foldl_min_le_init ys x
    · exact foldl_min_le_mem ys y x h

theorem le_listMax (l : List ℤ) (x : ℤ) (hx : x ∈ l) : x ≤ listMax l := by
  cases l with
  | nil => cases hx
  | cons y ys =>
    rcases List.mem_cons.mp hx with h | h
    · subst h
      exact init_le_foldl_max ys x
    · exact mem_le_foldl_max ys y x h

theorem length_mul_listMin_le_sum (l : List ℤ) :
    (l.length : ℤ) * listMin l ≤ l.sum := by
  have h := List.card_nsmul_le_sum l (listMin l) (fun x hx => listMin_le l x hx)
  simpa [nsmul_eq_mul] using h

theorem sum_le_length_mul_listMax (l : List ℤ) :
    l.sum ≤ (l.length : ℤ) * listMax l := by
  have h := List.sum_le_card_nsmul l (listMax l) (fun x hx => le_listMax l x hx)
  simpa [nsmul_eq_mul] using h

theorem floor_half_eq_zero : ⌊(1/2 : ℚ)⌋ = 0 := by
  rw [Int.floor_eq_zero_iff]
  constructor <;> norm_num

theorem parseCycleResult_avg (l : List ℤ) :
    (parseCycleResult (l.map some)).avg = roundDiv l.sum l.length := by
  simp [parseCycleResult, getAverage, foldl_add_jsToNum, map_jsToNum_map_some]

/-- C6: for every non-empty sample sequence, the reducer's `avg` field is the
exact (unrounded) rational sum of the samples divided by the sample count,
rounded to the nearest integer exactly once with round-half-up
(`⌊q + 1/2⌋`, the semantics of JS `Math.round`); no intermediate rounding
occurs. -/
theorem c6_avg_single_round (l : List ℤ) (h : l ≠ []) :
    (parseCycleResult (l.map some)).avg =
      ⌊(l.sum : ℚ) / (l.length : ℚ) + 1/2⌋ := by
  rw [parseCycleResult_avg]
  exact roundDiv_eq l.sum l.length (List.length_pos.mpr h)

/-- Closed instantiation of `c6_avg_single_round` at the sample list
`[3, 4]` (average `7/2`, rounded half-up to `4`). -/
theorem c6_avg_single_round_witness :
    (parseCycleResult ([(3 : ℤ), 4].map some)).avg =
      ⌊(([(3 : ℤ), 4].sum : ℚ) / (([(3 : ℤ), 4].length : ℕ) : ℚ) + 1/2)⌋ :=
  c6_avg_single_round [3, 4] (by decide)

/-- C7: for every non-empty integer sample sequence, the reduced report
satisfies `min ≤ avg ≤ max`. -/
theorem c7_min_le_avg_le_max (l : List ℤ) (h : l ≠ []) :
    (parseCycleResult (l.map some)).min ≤ (parseCycleResult (l.map some)).avg ∧
    (parseCycleResult (l.map some)).avg ≤ (parseCycleResult (l.map some)).max := by
  have hn : 0 < l.length := List.length_pos.mpr h
  have hnQ : (0 : ℚ) < (l.length : ℚ) := by exact_mod_cast hn
  have hmin : (parseCycleResult (l.map some)).min = listMin l := by
    simp [parseCycleResult, map_jsToNum_map_some]
  have hmax : (parseCycleResult (l.map some)).max = listMax l := by
    simp [parseCycleResult, map_jsToNum_map_some]
  have havg : (parseCycleResult (l.map some)).avg =
      ⌊(l.sum : ℚ) / (l.length : ℚ) + 1/2⌋ := c6_avg_single_round l h
  have hlow : ((listMin l : ℤ) : ℚ) ≤ (l.sum : ℚ) / (l.length : ℚ) := by
    rw [le_div_iff₀ hnQ]
    exact_mod_cast (mul_comm ((l.length : ℤ)) (listMin l) ▸
      length_mul_listMin_le_sum l)
  have hhigh : (l.sum : ℚ) / (l.length : ℚ) ≤ ((listMax l : ℤ) : ℚ) := by
    rw [div_le_iff₀ hnQ]
    exact_mod_cast (mul_comm ((l.length : ℤ)) (listMax l) ▸
      sum_le_length_mul_listMax l)
  constructor
  · rw [hmin, havg]
    have := Int.floor_le_floor (add_le_add_right hlow (1/2 : ℚ))
    rwa [Int.floor_int_add, floor_half_eq_zero, add_zero] at this
  · rw [hmax, havg]
    have := Int.floor_le_floor (add_le_add_right hhigh (1/2 : ℚ))
    rwa [Int.floor_int_add, floor_half_eq_zero, add_zero] at this

/-- Closed instantiation of `c7_min_le_avg_le_max` at the sample list
`[3, 4]`. -/
theorem c7_min_le_avg_le_max_witness :
    (parseCycleResult ([(3 : ℤ), 4].map some)).min ≤
      (parseCycleResult ([(3 : ℤ), 4].map some)).avg ∧
    (parseCycleResult ([(3 : ℤ), 4].map some)).avg ≤
      (parseCycleResult ([(3 : ℤ), 4].map some)).max :=
  c7_min_le_avg_le_max [3, 4] (by decide)

/-! Structure of the invocation loop's trace and result. -/

theorem invocationLoop_acts (cfg : Config) (ad : Adapter) (s : ℕ) :
    ∀ (n i : ℕ), ∀ a ∈ (invocationLoop cfg ad s i n).1,
      (∃ ms, a = Action.delay ms) ∨ (∃ j, 1 ≤ j ∧ a = Action.invoke j) ∨
        (∃ d, a = Action.emitInvoke d) := by
  intro n
  induction n with
  | zero =>
    intro i a ha
    cases ha
  | succ n ih =>
    intro i a ha
    cases hinv : invokeLambda ad s (i + 1) with
    | error e =>
      simp [invocationLoop, hinv] at ha
      rcases ha with h | h
      · exact Or.inl ⟨_, h⟩
      · exact Or.inr (Or.inl ⟨i + 1, by omega, h⟩)
    | ok dur =>
      simp [invocationLoop, hinv] at ha
      rcases ha with h | h | h | h
      · exact Or.inl ⟨_, h⟩
      · exact Or.inr (Or.inl ⟨i + 1, by omega, h⟩)
      · exact Or.inr (Or.inr ⟨dur, h⟩)
      · exact ih (i + 1) a h

theorem invocationLoop_ok (cfg : Config) (ad : Adapter) (s : ℕ) :
    ∀ (n i : ℕ) (l : List (Option ℤ)),
      (invocationLoop cfg ad s i n).2 = .ok l →
      l.length = n ∧ ∀ j (hj : j < l.length),
        invokeLambda ad s (i + j + 1) = .ok (l.get ⟨j, hj⟩) := by
  intro n
  induction n with
  | zero =>
    intro i l hl
    simp [invocationLoop] at hl
    subst hl
    refine ⟨rfl, ?_⟩
    intro j hj
    cases hj
  | succ n ih =>
    intro i l hl
    cases hinv : invokeLambda ad s (i + 1) with
    | error e => simp [invocationLoop, hinv] at hl
    | ok dur =>
      cases hrest : (invocationLoop cfg ad s (i + 1) n).2 with
      | error e => simp [invocationLoop, hinv, hrest] at hl
      | ok l' =>
        simp [invocationLoop, hinv, hrest] at hl
        subst hl
        obtain ⟨hlen, hidx⟩ := ih (i + 1) l' hrest
        refine ⟨by simp [hlen], ?_⟩
        intro j hj
        cases j with
        | zero => simpa using hinv
        | succ j' =>
          have hj' : j' < l'.length := by
            simpa using Nat.lt_of_succ_lt_succ hj
          have h := hidx j' hj'
          have harith : i + (j' + 1) + 1 = i + 1 + j' + 1 := by omega
          rw [harith]
          simpa using h

theorem invocationLoop_allNone (cfg : Config) (ad : Adapter) (s : ℕ)
    (hinv : ∀ i, ad.invoke s i = .ok none) :
    ∀ (n i : ℕ),
      (invocationLoop cfg ad s i n).2 = .ok (List.replicate n none) := by
  intro n
  induction n with
  | zero => intro i; simp [invocationLoop]
  | succ n ih =>
    intro i
    have h1 : invokeLambda ad s (i + 1) = .ok none := by
      simp [invokeLambda, hinv]
    simp [invocationLoop, h1, ih (i + 1), List.replicate_succ]

/-! Structure of a cycle's trace and result. -/

theorem cycle_res (cfg : Config) (ad : Adapter) (s : ℕ) (l : List (Option ℤ))
    (h : (cycle cfg ad s).2 = .ok l) :
    (invocationLoop cfg ad s 0 cfg.repeats).2 = .ok l := by
  by_cases hb : (cfg.warmup && cfg.concurrency == 1) = true
  · cases hw : invokeLambda ad s 0 with
    | error e => simp [cycle, hb, hw] at h
    | ok d0 => simpa [cycle, hb, hw] using h
  · simpa [cycle, hb] using h

theorem cycle_acts (cfg : Config) (ad : Adapter) (s : ℕ) :
    ∀ a ∈ (cycle cfg ad s).1,
      a = Action.emitWarmup ∨ (∃ ms, a = Action.delay ms) ∨
        (∃ j, a = Action.invoke j) ∨ (∃ d, a = Action.emitInvoke d) := by
  intro a ha
  have hloop := invocationLoop_acts cfg ad s cfg.repeats 0
  by_cases hb : (cfg.warmup && cfg.concurrency == 1) = true
  · cases hw : invokeLambda ad s 0 with
    | error e =>
      simp [cycle, hb, hw] at ha
      rcases ha with h | h
      · exact Or.inl h
      · exact Or.inr (Or.inr (Or.inl ⟨0, h⟩))
    | ok d0 =>
      simp [cycle, hb, hw] at ha
      rcases ha with h | h | h | h
      · exact Or.inl h
      · exact Or.inr (Or.inr (Or.inl ⟨0, h⟩))
      · exact Or.inr (Or.inl ⟨_, h⟩)
      · rcases hloop a h with h' | ⟨j, _, hj⟩ | h'
        · exact Or.inr (Or.inl h')
        · exact Or.inr (Or.inr (Or.inl ⟨j, hj⟩))
        · exact Or.inr (Or.inr (Or.inr h'))
  · simp [cycle, hb] at ha
    rcases ha with h | h
    · exact Or.inr (Or.inl ⟨_, h⟩)
    · rcases hloop a h with h' | ⟨j, _, hj⟩ | h'
      · exact Or.inr (Or.inl h')
      · exact Or.inr (Or.inr (Or.inl ⟨j, hj⟩))
      · exact Or.inr (Or.inr (Or.inr h'))

theorem cycle_filter_finalize (cfg : Config) (ad : Adapter) (s : ℕ) :
    (cycle cfg ad s).1.filter (fun a => a.isRestore || a.isFinish) = [] := by
  rw [List.filter_eq_nil_iff]
  intro a ha
  rcases cycle_acts cfg ad s a ha with h | ⟨ms, h⟩ | ⟨j, h⟩ | ⟨d, h⟩ <;>
    subst h <;> simp

theorem cycle_filter_setConfig (cfg : Config) (ad : Adapter) (s : ℕ) :
    (cycle cfg ad s).1.filter Action.isSetConfig = [] := by
  rw [List.filter_eq_nil_iff]
  intro a ha
  rcases cycle_acts cfg ad s a ha with h | ⟨ms, h⟩ | ⟨j, h⟩ | ⟨d, h⟩ <;>
    subst h <;> simp

theorem cycle_filter_restore (cfg : Config) (ad : Adapter) (s : ℕ) :
    (cycle cfg ad s).1.filter Action.isRestore = [] := by
  rw [List.filter_eq_nil_iff]
  intro a ha
  rcases cycle_acts cfg ad s a ha with h | ⟨ms, h⟩ | ⟨j, h⟩ | ⟨d, h⟩ <;>
    subst h <;> simp

/-! Structure of the sweep's trace and result. -/

theorem sweep_filter_finalize (cfg : Config) (ad : Adapter) :
    ∀ (steps : List ℤ) (idx : ℕ) (report : List (ℤ × StepReport)),
      (sweep cfg ad idx steps report).1.filter
        (fun a => a.isRestore || a.isFinish) = [] := by
  intro steps
  induction steps with
  | nil => intro idx report; rfl
  | cons m rest ih =>
    intro idx report
    cases hset : ad.setMemory m with
    | error e => simp [sweep, hset]
    | ok u =>
      cases hcyc : (cycle cfg ad idx).2 with
      | error e =>
        simp [sweep, hset, hcyc, cycle_filter_finalize]
      | ok cl =>
        simp [sweep, hset, hcyc, cycle_filter_finalize, ih]

theorem sweep_filter_restore (cfg : Config) (ad : Adapter) :
    ∀ (steps : List ℤ) (idx : ℕ) (report : List (ℤ × StepReport)),
      (sweep cfg ad idx steps report).1.filter Action.isRestore = [] := by
  intro steps
  induction steps with
  | nil => intro idx report; rfl
  | cons m rest ih =>
    intro idx report
    cases hset : ad.setMemory m with
    | error e => simp [sweep, hset]
    | ok u =>
      cases hcyc : (cycle cfg ad idx).2 with
      | error e =>
        simp [sweep, hset, hcyc, cycle_filter_restore]
      | ok cl =>
        simp [sweep, hset, hcyc, cycle_filter_restore, ih]

theorem sweep_error (cfg : Config) (ad : Adapter) (e : Err)
    (hset : ∀ m, ad.setMemory m = .ok ()) :
    ∀ (steps : List ℤ) (k idx : ℕ) (report : List (ℤ × StepReport)),
      k < steps.length →
      (∀ j, j < k → ∃ out, (cycle cfg ad (idx + j)).2 = .ok out) →
      (cycle cfg ad (idx + k)).2 = .error e →
      (sweep cfg ad idx steps report).2 = .error e ∧
      (sweep cfg ad idx steps report).1.filter Action.isSetConfig =
        (steps.take (k + 1)).map Action.setConfig := by
  intro steps
  induction steps with
  | nil =>
    intro k idx report hk
    exact absurd hk (Nat.not_lt_zero k)
  | cons m rest ih =>
    intro k idx report hk hprev herr
    cases k with
    | zero =>
      have herr0 : (cycle cfg ad idx).2 = .error e := by simpa using herr
      constructor
      · simp [sweep, hset m, herr0]
      · simp [sweep, hset m, herr0, cycle_filter_setConfig]
    | succ k' =>
      obtain ⟨out, hout⟩ := hprev 0 (Nat.succ_pos k')
      rw [Nat.add_zero] at hout
      have hprev' : ∀ j, j < k' →
          ∃ o, (cycle cfg ad (idx + 1 + j)).2 = .ok o := by
        intro j hj
        have h := hprev (j + 1) (by omega)
        rwa [show idx + (j + 1) = idx + 1 + j by omega] at h
      have herr' : (cycle cfg ad (idx + 1 + k')).2 = .error e := by
        rwa [show idx + (k' + 1) = idx + 1 + k' by omega] at herr
      have hk' : k' < rest.length := by simpa using Nat.lt_of_succ_lt_succ hk
      obtain ⟨hres, hfil⟩ := ih k' (idx + 1)
        (reportInsert report m (parseCycleResult out)) hk' hprev' herr'
      constructor
      · simp [sweep, hset m, hout, hres]
      · simp [sweep, hset m, hout, hfil, cycle_filter_setConfig]

/-! Structure of the whole run. -/

theorem run_acts (cfg : Config) (ad : Adapter) (m0 : ℤ)
    (hget : ad.getMemory = .ok m0) :
    (run cfg ad).1 = Action.getConfig m0 :: Action.emitStart m0 ::
      (sweep cfg ad 0 cfg.steps []).1 ++
      [Action.emitFinish, Action.restoreConfig m0] := by
  cases hres : ad.setMemory m0 with
  | error e2 => simp [run, hget, hres]
  | ok u => simp [run, hget, hres]

theorem run_res_ok (cfg : Config) (ad : Adapter) (m0 : ℤ)
    (hget : ad.getMemory = .ok m0) (hrestore : ad.setMemory m0 = .ok ()) :
    (run cfg ad).2 = (sweep cfg ad 0 cfg.steps []).2 := by
  simp [run, hget, hrestore]

theorem run_filter_finalize (cfg : Config) (ad : Adapter) (m0 : ℤ)
    (hget : ad.getMemory = .ok m0) :
    (run cfg ad).1.filter (fun a => a.isRestore || a.isFinish) =
      [Action.emitFinish, Action.restoreConfig m0] := by
  rw [run_acts cfg ad m0 hget]
  simp [sweep_filter_finalize]

theorem run_filter_restore (cfg : Config) (ad : Adapter) (m0 : ℤ)
    (hget : ad.getMemory = .ok m0) :
    (run cfg ad).1.filter Action.isRestore = [Action.restoreConfig m0] := by
  rw [run_acts cfg ad m0 hget]
  simp [sweep_filter_restore]

theorem run_single_step (cfg : Config) (ad : Adapter) (m0 m : ℤ)
    (l : List (Option ℤ)) (hsteps : cfg.steps = [m])
    (hget : ad.getMemory = .ok m0) (hset : ∀ x, ad.setMemory x = .ok ())
    (hcyc : (cycle cfg ad 0).2 = .ok l) :
    (run cfg ad).2 = .ok [(m, parseCycleResult l)] := by
  rw [run_res_ok cfg ad m0 hget (hset m0), hsteps]
  simp [sweep, hset m, hcyc, reportInsert]

/-! Auxiliary facts for the all-null cycle. -/

theorem foldl_min_replicate_zero : ∀ k : ℕ,
    (List.replicate k (0 : ℤ)).foldl min 0 = 0 := by
  intro k
  induction k with
  | zero => rfl
  | succ k ih => simp [List.replicate_succ, ih]

theorem foldl_max_replicate_zero : ∀ k : ℕ,
    (List.replicate k (0 : ℤ)).foldl max 0 = 0 := by
  intro k
  induction k with
  | zero => rfl
  | succ k ih => simp [List.replicate_succ, ih]

theorem roundDiv_zero (b : ℕ) (hb : 0 < b) : roundDiv 0 b = 0 := by
  have hb' : (0 : ℤ) < (b : ℤ) := by exact_mod_cast hb
  rw [roundDiv, mul_zero, zero_add]
  exact Int.ediv_eq_zero_of_lt (le_of_lt hb') (by omega)

theorem parseCycleResult_allNone (n : ℕ) (hn : 1 ≤ n) :
    (parseCycleResult (List.replicate n none)).min = 0 ∧
    (parseCycleResult (List.replicate n none)).max = 0 ∧
    (parseCycleResult (List.replicate n none)).avg = 0 := by
  obtain ⟨k, rfl⟩ : ∃ k, n = k + 1 := ⟨n - 1, by omega⟩
  refine ⟨?_, ?_, ?_⟩
  · simp [parseCycleResult, List.map_replicate, jsToNum, List.replicate_succ,
      listMin, foldl_min_replicate_zero]
  · simp [parseCycleResult, List.map_replicate, jsToNum, List.replicate_succ,
      listMax, foldl_max_replicate_zero]
  · have h : (parseCycleResult (List.replicate (k + 1) none)).avg =
        roundDiv 0 (k + 1) := by
      simp [parseCycleResult, getAverage, foldl_add_jsToNum,
        List.map_replicate, List.sum_replicate]
    rw [h]
    exact roundDiv_zero (k + 1) (Nat.succ_pos k)

/-! Claim C1. -/

/-- C1 counterexample: in the completed run of `cfgBase` with `adBase`, the
`finish` event is emitted strictly before the restore call (the source emits
`finish` on line 130 and only then calls `_setAllocatedMemory` on line 131),
so the claim that `finish` is emitted only after the restore call fails on
this run. -/
theorem c1_counterexample :
    (run cfgBase adBase).1.indexOf Action.emitFinish <
      (run cfgBase adBase).1.indexOf (Action.restoreConfig 128) ∧
    Action.emitFinish ∈ (run cfgBase adBase).1 ∧
    Action.restoreConfig 128 ∈ (run cfgBase adBase).1 := by decide

/-- C1 (amended): for every run whose initial configuration read succeeds,
the original configuration captured at Init is restored via the adapter
exactly once on every exit path, and the `finish` event is emitted exactly
once, immediately before (not after) the restore call: the run trace
restricted to restore calls and `finish` events is precisely
`[finish, restore original]`. -/
theorem c1_restore_once_finish_before (cfg : Config) (ad : Adapter) (m0 : ℤ)
    (hget : ad.getMemory = .ok m0) :
    (run cfg ad).1.filter (fun a => a.isRestore || a.isFinish) =
      [Action.emitFinish, Action.restoreConfig m0] :=
  run_filter_finalize cfg ad m0 hget

/-- Closed instantiation of `c1_restore_once_finish_before` on the run of
`cfgBase` with `adBase`. -/
theorem c1_restore_once_finish_before_witness :
    (run cfgBase adBase).1.filter (fun a => a.isRestore || a.isFinish) =
      [Action.emitFinish, Action.restoreConfig 128] :=
  c1_restore_once_finish_before cfgBase adBase 128 (by decide)

/-! Claim C2. -/

/-- C2 counterexample: with two invocations measuring `100` ms and `null`,
the list handed to `_parseCycleResult` is `[some 100, none]` — the `null` is
not removed — and the `null` enters the reduction coerced to `0`
(`min = 0`), whereas reducing the non-null durations alone would give
`min = 100`.  The cycle is nevertheless not aborted. -/
theorem c2_counterexample :
    (run cfgRepeats2 adMixed).2 =
      .ok [(256, parseCycleResult [some 100, none])] ∧
    (parseCycleResult [some 100, none]).min = 0 ∧
    (parseCycleResult [some 100]).min = 100 := by decide

/-- C2 (amended): the sample handed to the statistics reduction is the raw
cycle result: every invocation result in dispatch order, `null` entries
included (they are coerced to `0` inside `min`/`max`/`avg` rather than
filtered out), and the presence of `null`s does not abort the cycle — the
run still produces a report for the step. -/
theorem c2_sample_unfiltered (cfg : Config) (ad : Adapter) (m0 m : ℤ)
    (l : List (Option ℤ)) (hsteps : cfg.steps = [m])
    (hget : ad.getMemory = .ok m0) (hset : ∀ x, ad.setMemory x = .ok ())
    (hcyc : (cycle cfg ad 0).2 = .ok l) :
    (run cfg ad).2 = .ok [(m, parseCycleResult l)] :=
  run_single_step cfg ad m0 m l hsteps hget hset hcyc

/-- Closed instantiation of `c2_sample_unfiltered`: the cycle of
`cfgRepeats2` with `adMixed` resolves to `[some 100, none]` (a `null`
included) and the run hands exactly that list to the reducer. -/
theorem c2_sample_unfiltered_witness :
    (run cfgRepeats2 adMixed).2 =
      .ok [(256, parseCycleResult [some 100, none])] :=
  c2_sample_unfiltered cfgRepeats2 adMixed 128 256 [some 100, none]
    (by decide) (by decide) (fun x => rfl) (by decide)

/-! Claim C3. -/

/-- C3 counterexample: when every invocation of the cycle returns `null`
timing, the run does not fail — there is no `NoMeasurableInvocationsError`
anywhere in the source — it resolves with a report computed from the
all-null sample (`min = max = avg = 0`); the original configuration is
restored as on every run. -/
theorem c3_counterexample :
    (run cfgRepeats2 adAllNull).2 =
      .ok [(256, parseCycleResult [none, none])] ∧
    (parseCycleResult [none, none]).avg = 0 ∧
    (run cfgRepeats2 adAllNull).1.filter Action.isRestore =
      [Action.restoreConfig 128] := by decide

/-- C3 (amended): if every invocation in the cycle returns `null` timing,
the run does not fail: it produces a `StepReport` whose `min`, `max` and
`avg` are all `0` (the `null`s coerce to `0`), and the original
configuration is still restored exactly once. -/
theorem c3_all_null_no_failure (cfg : Config) (ad : Adapter) (m0 m : ℤ)
    (hsteps : cfg.steps = [m]) (hr : 1 ≤ cfg.repeats)
    (hget : ad.getMemory = .ok m0) (hset : ∀ x, ad.setMemory x = .ok ())
    (hinv : ∀ s i, ad.invoke s i = .ok none) :
    (run cfg ad).2 =
      .ok [(m, parseCycleResult (List.replicate cfg.repeats none))] ∧
    (parseCycleResult (List.replicate cfg.repeats none)).min = 0 ∧
    (parseCycleResult (List.replicate cfg.repeats none)).max = 0 ∧
    (parseCycleResult (List.replicate cfg.repeats none)).avg = 0 ∧
    (run cfg ad).1.filter Action.isRestore = [Action.restoreConfig m0] := by
  have hcyc : (cycle cfg ad 0).2 = .ok (List.replicate cfg.repeats none) := by
    have hloop := invocationLoop_allNone cfg ad 0 (hinv 0) cfg.repeats 0
    by_cases hb : (cfg.warmup && cfg.concurrency == 1) = true
    · have hw : invokeLambda ad 0 0 = .ok none := by simp [invokeLambda, hinv]
      simp [cycle, hb, hw, hloop]
    · simp [cycle, hb, hloop]
  obtain ⟨h1, h2, h3⟩ := parseCycleResult_allNone cfg.repeats hr
  exact ⟨run_single_step cfg ad m0 m _ hsteps hget hset hcyc, h1, h2, h3,
    run_filter_restore cfg ad m0 hget⟩

/-- Closed instantiation of `c3_all_null_no_failure` on `cfgRepeats2` with
the all-null adapter. -/
theorem c3_all_null_no_failure_witness :
    (run cfgRepeats2 adAllNull).2 =
      .ok [(256, parseCycleResult (List.replicate cfgRepeats2.repeats none))] ∧
    (parseCycleResult (List.replicate cfgRepeats2.repeats none)).min = 0 ∧
    (parseCycleResult (List.replicate cfgRepeats2.repeats none)).max = 0 ∧
    (parseCycleResult (List.replicate cfgRepeats2.repeats none)).avg = 0 ∧
    (run cfgRepeats2 adAllNull).1.filter Action.isRestore =
      [Action.restoreConfig 128] :=
  c3_all_null_no_failure cfgRepeats2 adAllNull 128 256 (by decide) (by decide)
    (by decide) (fun x => rfl) (fun s i => rfl)

/-! Claim C4. -/

/-- C4 counterexample: with warm-up enabled and concurrency 2, no warm-up
invocation and no `warmup` event occur, but the pre-cycle delay of
`interInvocationDelayMs` (5 ms) still occurs — the source keys the
pre-cycle `.delay` on `warmup` alone — refuting the claim that no pre-cycle
delay occurs when concurrency > 1. -/
theorem c4_counterexample :
    (cycle cfgConc2 adBase 0).1 =
      [Action.delay 5, Action.delay 0, Action.invoke 1,
       Action.emitInvoke (some 100)] := by decide

/-- C4 (amended): the warm-up invocation (index 0) and the `warmup` event
occur iff warm-up is enabled and concurrency equals 1, the event being
emitted immediately before the warm-up invocation; when warm-up does not run
(in particular for concurrency > 1) the cycle begins with a `.delay` call
that still waits `interInvocationDelayMs` whenever warm-up is enabled. -/
theorem c4_warmup_iff_and_delay (cfg : Config) (ad : Adapter) (s : ℕ) :
    (Action.emitWarmup ∈ (cycle cfg ad s).1 ↔
      cfg.warmup = true ∧ cfg.concurrency = 1) ∧
    (Action.invoke 0 ∈ (cycle cfg ad s).1 ↔
      cfg.warmup = true ∧ cfg.concurrency = 1) ∧
    (cfg.warmup = true ∧ cfg.concurrency = 1 →
      (cycle cfg ad s).1.take 2 = [Action.emitWarmup, Action.invoke 0]) ∧
    (¬(cfg.warmup = true ∧ cfg.concurrency = 1) →
      (cycle cfg ad s).1 =
        Action.delay (if cfg.warmup then cfg.delay else 0) ::
          (invocationLoop cfg ad s 0 cfg.repeats).1) := by
  by_cases hP : cfg.warmup = true ∧ cfg.concurrency = 1
  · have hb : (cfg.warmup && cfg.concurrency == 1) = true := by
      simp [hP.1, hP.2]
    cases hw : invokeLambda ad s 0 with
    | error e =>
      refine ⟨⟨fun _ => hP, fun _ => ?_⟩, ⟨fun _ => hP, fun _ => ?_⟩,
        fun _ => ?_, fun hn => absurd hP hn⟩
      · simp [cycle, hb, hw]
      · simp [cycle, hb, hw]
      · simp [cycle, hb, hw]
    | ok d0 =>
      refine ⟨⟨fun _ => hP, fun _ => ?_⟩, ⟨fun _ => hP, fun _ => ?_⟩,
        fun _ => ?_, fun hn => absurd hP hn⟩
      · simp [cycle, hb, hw]
      · simp [cycle, hb, hw]
      · simp [cycle, hb, hw]
  · have hb : ¬((cfg.warmup && cfg.concurrency == 1) = true) := by
      simpa using hP
    have htr : (cycle cfg ad s).1 =
        Action.delay (if cfg.warmup then cfg.delay else 0) ::
          (invocationLoop cfg ad s 0 cfg.repeats).1 := by
      simp [cycle, hb]
    refine ⟨⟨fun hm => ?_, fun h => absurd h hP⟩,
      ⟨fun hm => ?_, fun h => absurd h hP⟩,
      fun h => absurd h hP, fun _ => htr⟩
    · rw [htr] at hm
      rcases List.mem_cons.mp hm with h | h
      · cases h
      · rcases invocationLoop_acts cfg ad s cfg.repeats 0 _ h with
          ⟨ms, h'⟩ | ⟨j, hj, h'⟩ | ⟨d, h'⟩ <;> cases h'
    · rw [htr] at hm
      rcases List.mem_cons.mp hm with h | h
      · cases h
      · rcases invocationLoop_acts cfg ad s cfg.repeats 0 _ h with
          ⟨ms, h'⟩ | ⟨j, hj, h'⟩ | ⟨d, h'⟩
        · cases h'
        · injection h' with hj0
          omega
        · cases h'

/-- Closed instantiation of `c4_warmup_iff_and_delay` on `cfgConc2`
(warm-up on, concurrency 2): the cycle's trace starts with the pre-cycle
delay of 5 ms although the warm-up invocation itself is skipped. -/
theorem c4_warmup_iff_and_delay_witness :
    (cycle cfgConc2 adBase 0).1 =
      Action.delay (if cfgConc2.warmup then cfgConc2.delay else 0) ::
        (invocationLoop cfgConc2 adBase 0 0 cfgConc2.repeats).1 :=
  (c4_warmup_iff_and_delay cfgConc2 adBase 0).2.2.2 (by decide)

/-! Claim C5. -/

/-- C5: if the cycle of sweep position `k` fails (for instance because an
invocation raised `InvocationError`) while every earlier cycle succeeded and
all configuration updates are accepted, the error propagates to the caller;
only the configurations of steps `0..k` are ever applied (later steps never
execute and dispatch no invocation), the original configuration is restored
exactly once, and the trace ends with the `finish` event and that restore
call — so the restore happens before the error surfaces. -/
theorem c5_error_short_circuits (cfg : Config) (ad : Adapter) (m0 : ℤ)
    (e : Err) (k : ℕ) (hget : ad.getMemory = .ok m0)
    (hset : ∀ x, ad.setMemory x = .ok ()) (hk : k < cfg.steps.length)
    (hprev : ∀ j, j < k → ∃ out, (cycle cfg ad j).2 = .ok out)
    (herr : (cycle cfg ad k).2 = .error e) :
    (run cfg ad).2 = .error e ∧
    (run cfg ad).1.filter Action.isSetConfig =
      (cfg.steps.take (k + 1)).map Action.setConfig ∧
    (run cfg ad).1.filter (fun a => a.isRestore || a.isFinish) =
      [Action.emitFinish, Action.restoreConfig m0] ∧
    (run cfg ad).1 = Action.getConfig m0 :: Action.emitStart m0 ::
      (sweep cfg ad 0 cfg.steps []).1 ++
      [Action.emitFinish, Action.restoreConfig m0] := by
  have hprev0 : ∀ j, j < k → ∃ out, (cycle cfg ad (0 + j)).2 = .ok out := by
    intro j hj
    simpa using hprev j hj
  have herr0 : (cycle cfg ad (0 + k)).2 = .error e := by simpa using herr
  obtain ⟨hres, hfil⟩ :=
    sweep_error cfg ad e hset cfg.steps k 0 [] hk hprev0 herr0
  refine ⟨?_, ?_, run_filter_finalize cfg ad m0 hget, run_acts cfg ad m0 hget⟩
  · rw [run_res_ok cfg ad m0 hget (hset m0), hres]
  · rw [run_acts cfg ad m0 hget]
    simp [hfil]

/-- Closed instantiation of `c5_error_short_circuits` on the three-step
sweep `cfgSweep3` whose first cycle already fails: steps 2 and 3 are never
applied, the restore happens once, and the invocation error surfaces. -/
theorem c5_error_short_circuits_witness :
    (run cfgSweep3 adInvokeFail).2 = .error (.invocationError 0 1) ∧
    (run cfgSweep3 adInvokeFail).1.filter Action.isSetConfig =
      (cfgSweep3.steps.take (0 + 1)).map Action.setConfig ∧
    (run cfgSweep3 adInvokeFail).1.filter
      (fun a => a.isRestore || a.isFinish) =
      [Action.emitFinish, Action.restoreConfig 128] ∧
    (run cfgSweep3 adInvokeFail).1 = Action.getConfig 128 ::
      Action.emitStart 128 ::
      (sweep cfgSweep3 adInvokeFail 0 cfgSweep3.steps []).1 ++
      [Action.emitFinish, Action.restoreConfig 128] :=
  c5_error_short_circuits cfgSweep3 adInvokeFail 128 (.invocationError 0 1) 0
    (by decide) (fun x => rfl) (by decide)
    (fun j hj => absurd hj (Nat.not_lt_zero j)) (by decide)

/-! Claim C8. -/

/-- C8 counterexample: with concurrency 1, warm-up enabled and repeats 3,
exactly 4 invocations occur in index order 0, 1, 2, 3, but no pacing delay
precedes invocation 0: the trace starts `warmup` event, invocation 0, and
the first `.delay` only comes after the warm-up invocation (two delays then
separate invocations 0 and 1), refuting "a pacing delay is observed before
each of the 4 invocations". -/
theorem c8_counterexample :
    (cycle cfgWarm3 adBase 0).1 =
      [Action.emitWarmup, Action.invoke 0, Action.delay 5, Action.delay 5,
       Action.invoke 1, Action.emitInvoke (some 100), Action.delay 5,
       Action.invoke 2, Action.emitInvoke (some 200), Action.delay 5,
       Action.invoke 3, Action.emitInvoke (some 300)] := by decide

/-- C8 (amended): when concurrency equals 1, warm-up is enabled and repeats
equals 3 and all invocations succeed, exactly 4 invocation attempts occur in
index order 0, 1, 2, 3; no pacing delay precedes the warm-up invocation 0
(the `warmup` event immediately precedes it); one delay of
`interInvocationDelayMs` follows the warm-up and one precedes each timed
invocation, so two delays separate invocations 0 and 1 and one delay
precedes each of invocations 2 and 3. -/
theorem c8_trace (cfg : Config) (ad : Adapter) (s : ℕ) (w d1 d2 d3 : Option ℤ)
    (hc : cfg.concurrency = 1) (hw : cfg.warmup = true) (hr : cfg.repeats = 3)
    (h0 : invokeLambda ad s 0 = .ok w) (h1 : invokeLambda ad s 1 = .ok d1)
    (h2 : invokeLambda ad s 2 = .ok d2) (h3 : invokeLambda ad s 3 = .ok d3) :
    (cycle cfg ad s).1 =
      [Action.emitWarmup, Action.invoke 0, Action.delay cfg.delay,
       Action.delay cfg.delay, Action.invoke 1, Action.emitInvoke d1,
       Action.delay cfg.delay, Action.invoke 2, Action.emitInvoke d2,
       Action.delay cfg.delay, Action.invoke 3, Action.emitInvoke d3] := by
  simp [cycle, invocationLoop, hc, hw, hr, h0, h1, h2, h3]

/-- Closed instantiation of `c8_trace` on `cfgWarm3` with `adMixed` (warm-up
unmeasured, timed invocations `100`, `null`, `null`). -/
theorem c8_trace_witness :
    (cycle cfgWarm3 adMixed 0).1 =
      [Action.emitWarmup, Action.invoke 0, Action.delay cfgWarm3.delay,
       Action.delay cfgWarm3.delay, Action.invoke 1,
       Action.emitInvoke (some 100), Action.delay cfgWarm3.delay,
       Action.invoke 2, Action.emitInvoke none, Action.delay cfgWarm3.delay,
       Action.invoke 3, Action.emitInvoke none] :=
  c8_trace cfgWarm3 adMixed 0 none (some 100) none none (by decide)
    (by decide) (by decide) (by decide) (by decide) (by decide) (by decide)

/-! Claim C9. -/

/-- C9 counterexample: when the sweep aborts with an invocation error and
the finalizing restore itself fails, the caller receives exactly the
restore failure — an error distinct from and carrying no reference to the
original fatal error — refuting the claim that a combined/wrapped error
surfaces. -/
theorem c9_counterexample :
    (run cfgBase adRestoreFail).2 = .error (.configUpdateError 128) ∧
    (sweep cfgBase adRestoreFail 0 cfgBase.steps []).2 =
      .error (.invocationError 0 1) ∧
    Err.configUpdateError 128 ≠ Err.invocationError 0 1 := by decide

/-- C9 (amended): if the run aborts with a fatal error and the finalizing
restore of the original configuration itself fails, the restore failure
replaces the original error (bluebird `.finally` semantics): the caller sees
only the restore rejection, and the original fatal error is silently
dropped, not combined or wrapped. -/
theorem c9_restore_failure_replaces (cfg : Config) (ad : Adapter) (m0 : ℤ)
    (e1 e2 : Err) (hget : ad.getMemory = .ok m0)
    (hsweep : (sweep cfg ad 0 cfg.steps []).2 = .error e1)
    (hrestore : ad.setMemory m0 = .error e2) :
    (run cfg ad).2 = .error e2 ∧
    (sweep cfg ad 0 cfg.steps []).2 = .error e1 := by
  refine ⟨?_, hsweep⟩
  simp [run, hget, hrestore]

/-- Closed instantiation of `c9_restore_failure_replaces` on `cfgBase` with
`adRestoreFail`. -/
theorem c9_restore_failure_replaces_witness :
    (run cfgBase adRestoreFail).2 = .error (.configUpdateError 128) ∧
    (sweep cfgBase adRestoreFail 0 cfgBase.steps []).2 =
      .error (.invocationError 0 1) :=
  c9_restore_failure_replaces cfgBase adRestoreFail 128
    (.invocationError 0 1) (.configUpdateError 128) (by decide) (by decide)
    (by decide)

/-! Claim C10. -/

/-- C10: a cycle with `repeats = n` that completes without an adapter error
resolves to a list of exactly `n` entries whose position `j` (0-based) holds
the result of invocation index `j + 1` — the rounded-integer duration or
`null` returned by `_invokeLambda` — so the result sequence is indexed by
dispatch order. -/
theorem c10_cycle_result_indexed (cfg : Config) (ad : Adapter) (s : ℕ)
    (l : List (Option ℤ)) (h : (cycle cfg ad s).2 = .ok l) :
    l.length = cfg.repeats ∧
    ∀ j (hj : j < l.length),
      invokeLambda ad s (j + 1) = .ok (l.get ⟨j, hj⟩) := by
  obtain ⟨hlen, hidx⟩ :=
    invocationLoop_ok cfg ad s cfg.repeats 0 l (cycle_res cfg ad s l h)
  refine ⟨hlen, ?_⟩
  intro j hj
  simpa using hidx j hj

/-- Closed instantiation of `c10_cycle_result_indexed`: the cycle of
`cfgBase` with `adBase` resolves to one entry, and its length matches
`repeats`. -/
theorem c10_cycle_result_indexed_witness :
    ([some 100] : List (Option ℤ)).length = cfgBase.repeats :=
  (c10_cycle_result_indexed cfgBase adBase 0 [some 100] (by decide)).1

end Runner
